import Mathlib

/-!
Verification of the quarg specification against a shallow embedding of
`src/quarg.py`.  The embedding translates the argument-descriptor builder
(`make_parser`, source lines 102-169), the docstring parser
(`parse_docstring`, lines 62-83), the override store (`_arg.__getattr__`,
lines 49-55), the command registry (`command`, lines 171-174), the output
filter machinery (`output` / `_default_output`, lines 176-197) and the
dispatch tail of `main` (lines 225-255).  External collaborators (the
`inspect` module, `os.getenv`, and the argparse flag actions) are modelled
at the interface boundary, as noted at each definition.
-/

set_option maxHeartbeats 1000000

namespace Quarg

/-- Python type objects that occur in the embedded fragment: the annotation
and inferred-default types `bool`, `int`, `str`; the `typing.IO` family
(`ioKind`); the `argparse.FileType('r')` object produced by
`external_argtype` (`fileTypeR`); and the metatypes returned by `type(v)`
for type objects and `None` (`typeType`, `noneType`). -/
inductive PyType where
  | bool
  | int
  | str
  | ioKind
  | fileTypeR
  | typeType
  | noneType
  deriving DecidableEq

/-- Python runtime values flowing through the builder: `None`, booleans,
integers, strings, and type objects (as stored under `params["type"]`). -/
inductive PVal where
  | vNone
  | vBool (b : Bool)
  | vInt (n : Int)
  | vStr (s : String)
  | vType (t : PyType)
  deriving DecidableEq

/-- Python truthiness `bool(v)` for the embedded values. -/
def pyTruthy : PVal → Bool
  | .vNone => false
  | .vBool b => b
  | .vInt n => n != 0
  | .vStr s => s != ""
  | .vType _ => true

/-- Python `type(v)` restricted to the embedded values (the source applies it
at line 149 only under the guard `d is not None`). -/
def pyTypeOf : PVal → PyType
  | .vNone => .noneType
  | .vBool _ => .bool
  | .vInt _ => .int
  | .vStr _ => .str
  | .vType _ => .typeType

/-- A Python dict with string keys, modelled extensionally as a lookup
function; `none` means the key is absent. -/
def Dict : Type := String → Option PVal

/-- The empty dict (`{}`, source line 117). -/
def dempty : Dict := fun _ => none

/-- Item assignment `d[k] = v`. -/
def dset (d : Dict) (k : String) (v : PVal) : Dict :=
  fun k2 => if k2 = k then some v else d k2

/-- `d.update(**o)` (source line 159): keys present in `o` win, every other
key keeps its value from `d`. -/
def dupdate (d : Dict) (o : Dict) : Dict :=
  fun k =>
    match o k with
    | some v => some v
    | none => d k

/-- `external_argtype` (source lines 88-100): a `typing.IO` subclass becomes
`argparse.FileType('r')`; any other type is returned unchanged.  The
source's `t is None` branch is represented by the caller's
`argtype is not None` test (line 155), under which this function is reached
only with an actual type. -/
def external_argtype (t : PyType) : PyType :=
  if t = .ioKind then .fileTypeR else t

/-- The inputs `make_parser` (source line 102) draws from the Python runtime
for one callable: the declaration-ordered parameter list and the signature
defaults (lines 109-112, via `inspect`), the annotations map (line 110), the
per-parameter override dicts recorded in `_arg_overrides` (line 158), and
the per-argument docstring help map (line 103).  An absent entry of
`overrides` models the key `(f, a)` being absent from `_arg_overrides`. -/
structure ArgSpec where
  args : List String
  annotations : String → Option PyType
  defaults0 : String → Option PVal
  overrides : String → Option Dict
  arghelp : String → Option String

/-- The state the argument loop of `make_parser` threads between parameters:
the claimed-abbreviation set `abbrevs` (line 114; it stores one-character
strings, modelled by their characters) and the `defaults` dict, which
line 125 updates in place. -/
structure BuildState where
  abbrevs : List Char
  defaults : String → Option PVal

/-- `abbrevs.add(c)` (set insertion; only membership is ever observed). -/
def addChar (s : List Char) (c : Char) : List Char :=
  if c ∈ s then s else c :: s

/-- One finished argument descriptor: the positional arguments `*names` and
the keyword arguments `**params` of the `parser.add_argument` call at source
line 168. -/
structure Desc where
  names : List String
  params : Dict

/-- Intermediate result of source lines 116-156 for one parameter. -/
structure Computed where
  named : Bool
  names : List String
  params : Dict
  abbrevs : List Char
  defaults : String → Option PVal

/-- Source lines 118-119: a single-character parameter name claims its own
letter in the abbreviation set. -/
def abbrevs0 (st : BuildState) (a : String) : List Char :=
  if a.length = 1 then addChar st.abbrevs (a.data.headD ' ') else st.abbrevs

/-- Source lines 122-125: a boolean-annotated parameter is assigned the
default False (`defaults[a] = False`). -/
def updDefaults (A : ArgSpec) (st : BuildState) (a : String) : String → Option PVal :=
  if A.annotations a = some PyType.bool then
    fun k => if k = a then some (PVal.vBool false) else st.defaults k
  else st.defaults

/-- Source lines 131-145: the flag spellings of a named option and the new
claimed-letter set.  A multi-character name gets the long form `--a`,
preceded by a short form built from the first character of the name (tried
lower-case then upper-case, in name order) not yet claimed, if any; a
single-character name gets `-a` alone. -/
def namesFor (a : String) (ab : List Char) : List String × List Char :=
  if a.length > 1 then
    let long := ["--" ++ a]
    let letters := a.data.flatMap (fun c => [c.toLower, c.toUpper])
    match letters.find? (fun c => !(ab.contains c)) with
    | some c => (("-" ++ c.toString) :: long, addChar ab c)
    | none => (long, ab)
  else (["-" ++ a], ab)

/-- Source lines 116-156 for one parameter `a`: name selection, abbreviation
claiming, default resolution, and the action/type keyword, before the
overrides (line 158) and the docstring help (line 161) are applied. -/
def computeArg (A : ArgSpec) (st : BuildState) (a : String) : Computed :=
  -- line 117: names, params, named = [a], {}, False
  let names := [a]
  let params := dempty
  let abbrevs := abbrevs0 st a
  -- line 121
  let argtype := A.annotations a
  let defaults := updDefaults A st a
  -- lines 127-149
  let r : Bool × List String × Dict × Option PyType × List Char :=
    match defaults a with
    | some d =>
      let na := namesFor a abbrevs
      -- line 147
      let params := dset params "default" d
      -- lines 148-149
      let argtype := if d ≠ PVal.vNone ∧ argtype = none then some (pyTypeOf d) else argtype
      (true, na.1, params, argtype, na.2)
    | none => (false, names, params, argtype, abbrevs)
  let (named, names, params, argtype, abbrevs) := r
  -- lines 151-156
  let params :=
    if argtype = some PyType.bool then
      dset params "action"
        (PVal.vStr (if pyTruthy ((defaults a).getD (PVal.vBool false)) then "store_false"
                    else "store_true"))
    else
      match argtype with
      | some t => dset params "type" (PVal.vType (external_argtype t))
      | none => params
  { named := named, names := names, params := params, abbrevs := abbrevs, defaults := defaults }

/-- Source lines 158-166: apply the recorded overrides, attach the docstring
help, and give a positional that acquired a default the optional arity. -/
def finishParams (A : ArgSpec) (a : String) (named : Bool) (params : Dict) : Dict :=
  -- lines 158-159
  let params :=
    match A.overrides a with
    | some ov => dupdate params ov
    | none => params
  -- lines 161-162
  let params :=
    match A.arghelp a with
    | some h => dset params "help" (PVal.vStr h)
    | none => params
  -- lines 164-166
  if named = false ∧ (params "default").isSome ∧ (params "nargs").isNone then
    dset params "nargs" (PVal.vStr "?")
  else params

/-- One iteration of the argument loop (source lines 116-168). -/
def processArg (A : ArgSpec) (st : BuildState) (a : String) : BuildState × Desc :=
  let c := computeArg A st a
  ({ abbrevs := c.abbrevs, defaults := c.defaults },
   { names := c.names, params := finishParams A a c.named c.params })

/-- The argument loop of `make_parser`, threading the build state. -/
def processArgs (A : ArgSpec) : List String → BuildState → BuildState × List Desc
  | [], st => (st, [])
  | a :: rest, st =>
    let sd := processArg A st a
    let tl := processArgs A rest sd.1
    (tl.1, sd.2 :: tl.2)

/-- The descriptor list `make_parser` registers for one callable (source
lines 102-169), in declaration order, starting from the empty
claimed-letter set (line 114) and the signature defaults (lines 111-112). -/
def makeParser (A : ArgSpec) : List Desc :=
  (processArgs A A.args { abbrevs := [], defaults := A.defaults0 }).2

/-- The abbreviation spelling claimed at source lines 139-143, recovered
from a finished descriptor: exactly the two-name descriptors carry one, as
their first name. -/
def claimedShort (d : Desc) : Option String :=
  if d.names.length = 2 then d.names.head? else none

/-- A default descriptor used with `List.getD`. -/
def dummyDesc : Desc := { names := [], params := dempty }

/-! ### Docstring parsing (source lines 60-83)

Lines are processed as `List Char`.  `inspect.cleandoc` (called by
`inspect.getdoc` and again at line 65) is an external collaborator from the
standard library; it is embedded following its reference behaviour:
expand tabs, strip the first line's leading whitespace, remove the common
margin of the remaining lines, and drop leading and trailing blank lines.
Only `'\n'` line breaks are modelled. -/

/-- Python whitespace (ASCII fragment), as tested by `str.isspace`,
`str.strip` and the regex class `\s`. -/
def pyIsSpaceChar (c : Char) : Bool :=
  c = ' ' ∨ c = '\t' ∨ c = '\n' ∨ c = '\x0b' ∨ c = '\x0c' ∨ c = '\r'

/-- The regex class `\w` (ASCII fragment): letters, digits, underscore. -/
def isWordChar (c : Char) : Bool :=
  c.isAlphanum || c = '_'

/-- Python `str.strip()`. -/
def pyStripL (l : List Char) : List Char :=
  ((l.dropWhile pyIsSpaceChar).reverse.dropWhile pyIsSpaceChar).reverse

/-- Python `str.isspace()`: nonempty and all whitespace. -/
def pyIsSpaceL (l : List Char) : Bool :=
  !l.isEmpty && l.all pyIsSpaceChar

/-- Python `str.split('\n')`: always at least one (possibly empty) piece. -/
def splitOnNL : List Char → List (List Char)
  | [] => [[]]
  | c :: rest =>
    let r := splitOnNL rest
    if c = '\n' then [] :: r
    else
      match r with
      | h :: t => (c :: h) :: t
      | [] => [[c]]

/-- Python `str.splitlines()` restricted to `'\n'` breaks: like
`split('\n')` but without a final empty piece for a trailing newline. -/
def pySplitlines (l : List Char) : List (List Char) :=
  if l.isEmpty then []
  else
    let parts := splitOnNL l
    if parts.getLast? = some [] then parts.dropLast else parts

/-- Python `str.expandtabs()` (tab size 8); the column resets after a line
break. -/
def pyExpandtabs : List Char → Nat → List Char
  | [], _ => []
  | c :: rest, col =>
    if c = '\t' then
      let k := 8 - col % 8
      List.replicate k ' ' ++ pyExpandtabs rest (col + k)
    else if c = '\n' ∨ c = '\r' then c :: pyExpandtabs rest 0
    else c :: pyExpandtabs rest (col + 1)

/-- Join lines with `'\n'` (`'\n'.join(lines)`). -/
def intercalateNL : List (List Char) → List Char
  | [] => []
  | [l] => l
  | l :: rest => l ++ '\n' :: intercalateNL rest

/-- The margin computation of `inspect.cleandoc`: the minimal indentation
of the non-blank lines under consideration (`none` when there is none). -/
def cleandocMargin (ls : List (List Char)) : Option Nat :=
  ls.foldl
    (fun m line =>
      if (line.dropWhile pyIsSpaceChar).isEmpty then m
      else
        let ind := (line.takeWhile pyIsSpaceChar).length
        match m with
        | none => some ind
        | some v => some (min v ind))
    none

/-- Drop trailing blank lines (`while lines and not lines[-1]: lines.pop()`). -/
def dropTrailingEmpties (ls : List (List Char)) : List (List Char) :=
  (ls.reverse.dropWhile List.isEmpty).reverse

/-- `inspect.cleandoc` on the embedded text representation. -/
def pyCleandoc (doc : List Char) : List Char :=
  let lines := splitOnNL (pyExpandtabs doc 0)
  let margin := cleandocMargin lines.tail
  let lines :=
    match lines with
    | [] => []
    | h :: t =>
      (h.dropWhile pyIsSpaceChar) ::
        (match margin with
         | some m => t.map (List.drop m)
         | none => t)
  let lines := dropTrailingEmpties lines
  let lines := lines.dropWhile List.isEmpty
  intercalateNL lines

/-- The match of `arghelp_re = ^(\s*--(\w+):\s+)(.*)$` (source line 60)
against a line: on success, the argument name `\w+`, the length of group 1
(the prefix through the mandatory whitespace after the colon), and the
trailing text of group 3. -/
def markerMatch (s : List Char) : Option (String × Nat × List Char) :=
  let s0 := s.dropWhile pyIsSpaceChar
  match s0 with
  | '-' :: '-' :: rest =>
    let name := rest.takeWhile isWordChar
    if name.isEmpty then none
    else
      match rest.drop name.length with
      | ':' :: rest2 =>
        let ws := rest2.takeWhile pyIsSpaceChar
        if ws.isEmpty then none
        else
          some (⟨name⟩, (s.length - s0.length) + 2 + name.length + 1 + ws.length,
                rest2.drop ws.length)
      | _ => none
  | _ => none

/-- The loop state of `parse_docstring` (source lines 67-79): the accumulated
per-argument help lists, the open block (`arg`, `indent`; `none` models the
Python `None, None`), and the accumulated description lines. -/
structure ScanState where
  arghelp : String → Option (List String)
  curBlock : Option (String × Nat)
  descLines : List (List Char)

/-- One iteration of the line loop of `parse_docstring` (lines 70-79). -/
def scanLine (st : ScanState) (l : List Char) : ScanState :=
  match markerMatch (pyStripL l) with
  | some (name, ind, text) =>
    -- lines 72-74: open a block; `arghelp[arg] = [m.group(3).strip()]`
    { arghelp := fun k => if k = name then some [⟨pyStripL text⟩] else st.arghelp k
      curBlock := some (name, ind)
      descLines := st.descLines }
  | none =>
    match st.curBlock with
    | some (name, ind) =>
      -- line 75: `elif indent and l[:indent].isspace()`
      if ind ≠ 0 ∧ pyIsSpaceL (l.take ind) then
        { arghelp := fun k =>
            if k = name then some (((st.arghelp name).getD []) ++ [⟨pyStripL l⟩])
            else st.arghelp k
          curBlock := st.curBlock
          descLines := st.descLines }
      else
        -- lines 77-79
        { arghelp := st.arghelp, curBlock := none, descLines := st.descLines ++ [l] }
    | none =>
      { arghelp := st.arghelp, curBlock := none, descLines := st.descLines ++ [l] }

/-- `parse_docstring` (source lines 62-83).  An absent docstring is
represented by `""` (`None` and `''` take the same falsy branch at
line 64); the empty arg-help of the absent case is modelled as the empty
map, which is observationally what the falsy `''` is used as.  The result
is `none` exactly when `lines[0]` (line 66) would raise `IndexError`, i.e.
when the cleaned text of a truthy docstring is empty. -/
def parse_docstring (doc : String) :
    Option (String × String × (String → Option String)) :=
  if doc = "" then some ("", "", fun _ => none)
  else
    let lines := pySplitlines (pyCleandoc doc.data)
    match lines with
    | [] => none
    | l0 :: _ =>
      let final := lines.foldl scanLine
        { arghelp := fun _ => none, curBlock := none, descLines := [] }
      some (⟨l0⟩, ⟨intercalateNL final.descLines⟩,
            fun a => (final.arghelp a).map (String.intercalate " "))

/-! ### Override store, command registry, output filters, dispatch -/

/-- A key of `_arg_overrides` (source line 29): the command identity paired
with the parameter name.  Callable identities are modelled by naturals. -/
abbrev OvKey : Type := Nat × String

/-- The `_arg_overrides` registry: absent keys are `none`. -/
def OvStore : Type := OvKey → Option Dict

/-- One application of a `quarg.arg.<name>(**kwargs)` decorator (source
line 52): `_arg_overrides[(f, name)] = dict(_arg_overrides.get((f, name), {}),
**kwargs)` — the stored dict is rebuilt from the previous entry with the new
keyword arguments winning key-by-key. -/
def arg_override (s : OvStore) (key : OvKey) (kwargs : Dict) : OvStore :=
  fun k =>
    if k = key then some (dupdate ((s key).getD dempty) kwargs)
    else s k

/-- `command` (source lines 171-174): `commands.append(f)`.  The registry is
a list of callable identities; the argument is returned unchanged by the
decorator, so repeated decoration repeats the append. -/
def command {α : Type} (commands : List α) (f : α) : List α :=
  commands ++ [f]

/-- An exception raised by a command body and caught by the
`except Exception` clause at source line 250, carrying its message
(`str(e)`) and the full traceback text that `traceback.print_exc` would
write. -/
structure Exn where
  msg : String
  trace : String

/-- `_default_output` (source lines 192-197): the string value of the result
unless it is `None`. -/
def default_output (result : PVal) : Option String :=
  if result ≠ PVal.vNone then some (pyStr result) else none
where
  /-- Python `str(v)` for the embedded values. -/
  pyStr : PVal → String
    | .vNone => "None"
    | .vBool b => if b then "True" else "False"
    | .vInt n => toString n
    | .vStr s => s
    | .vType _ => "<class>"

/-- The filter stored by `@quarg.output(None)` (source line 188):
`lambda _: None`, suppressing all output. -/
def nullOutputFn : PVal → Option String := fun _ => none

/-- `bool(os.getenv("QUARG_DEBUG"))` (source line 227): the debug flag's
default is the truthiness of the raw environment value; `os.getenv` returns
`None` (here `none`) when the variable is unset. -/
def quargDebugDefault (env : Option String) : Bool :=
  match env with
  | none => false
  | some s => s != ""

/-- The value of `args._quarg_debug` after parsing: the argparse
`store_true` action (an external collaborator) stores `True` when the
`--quarg-debug` flag appears on the command line and the default from
source line 227 otherwise. -/
def quargDebug (flagGiven : Bool) (env : Option String) : Bool :=
  if flagGiven then true else quargDebugDefault env

/-- What the dispatch tail of `main` (source lines 243-255) does after the
selected command body finishes: standard output and standard error content
and the exit status.  `exitCode = 0` models falling off the end of `main`
(no `sys.exit` call); `reraised` records an exception propagating out of
the `try` statement. -/
structure Report where
  out : Option String
  err : Option String
  exitCode : Nat
  reraised : Option Exn
  deriving Inhabited

/-- Source lines 243-255: invoke the output filter on a successful result
and print a truthy filtered string with a trailing newline; catch a
command-body exception, print the full traceback (debug) or the bare
message to standard error, and exit with status 1. -/
def invokeReport (debug : Bool) (filt : Option (PVal → Option String))
    (outcome : Except Exn PVal) : Report :=
  match outcome with
  | .ok result =>
    -- lines 246-249: `_output_fn.get(args._quarg_func, _default_output)`
    let stringResult := (filt.getD default_output) result
    let out :=
      match stringResult with
      | some s => if s ≠ "" then some (s ++ "\n") else none
      | none => none
    { out := out, err := none, exitCode := 0, reraised := none }
  | .error e =>
    -- lines 250-255
    { out := none
      err := some (if debug then e.trace else e.msg)
      exitCode := 1
      reraised := none }

/-- The argparse boolean flag actions (an external collaborator): under
`store_true` presence stores `True`, under `store_false` presence stores
`False`, and absence stores the descriptor's default.  Returns `none` for a
descriptor that carries neither action. -/
def flagParse (d : Desc) (present : Bool) : Option PVal :=
  match d.params "action" with
  | some (.vStr "store_true") =>
    some (if present then .vBool true else (d.params "default").getD .vNone)
  | some (.vStr "store_false") =>
    some (if present then .vBool false else (d.params "default").getD .vNone)
  | _ => none

/-! ### Specification-side docstring semantics

The following definitions state the amended docstring claim in its own
terms, to be compared with the implementation: a per-line classification
into marker / continuation / description lines, and the argument-help
blocks each marker opens. -/

/-- Description-line selection, following the claim's words: a line matching
the marker form opens a block whose continuation threshold is the width of
the marker prefix of the stripped line; while a block with threshold `ind`
is open, a line whose first `ind` characters form nonempty whitespace is a
continuation; every other line is a description line and closes the block. -/
def selectDesc : List (List Char) → Option Nat → List (List Char)
  | [], _ => []
  | l :: rest, openInd =>
    match markerMatch (pyStripL l) with
    | some (_, ind, _) => selectDesc rest (some ind)
    | none =>
      match openInd with
      | some ind =>
        if ind ≠ 0 ∧ pyIsSpaceL (l.take ind) then selectDesc rest (some ind)
        else l :: selectDesc rest none
      | none => l :: selectDesc rest none

/-- The continuation run of an open block with threshold `ind`: the lines up
to the first one that is a marker or not indented to the threshold. -/
def contRun (ind : Nat) (ls : List (List Char)) : List (List Char) :=
  ls.takeWhile (fun l =>
    (markerMatch (pyStripL l)).isNone && (decide (ind ≠ 0) && pyIsSpaceL (l.take ind)))

/-- The argument-help blocks, following the claim's words: each marker line
`--NAME: TEXT` yields the block `(NAME, TEXT :: its continuation lines)`,
all entries stripped. -/
def argBlocks : List (List Char) → List (String × List String)
  | [] => []
  | l :: rest =>
    match markerMatch (pyStripL l) with
    | some (name, ind, text) =>
      (name, (⟨pyStripL text⟩ : String) ::
        (contRun ind rest).map (fun x => (⟨pyStripL x⟩ : String))) :: argBlocks rest
    | none => argBlocks rest

/-- Lookup in a block list where the last binding of a name wins (a later
marker for the same name replaces the earlier entry). -/
def lookupLast : List (String × List String) → String → Option (List String)
  | [], _ => none
  | b :: bs, a =>
    match lookupLast bs a with
    | some r => some r
    | none => if b.1 = a then some b.2 else none

/-- The argument-help map the claim describes for a cleaned line list. -/
def specArgHelp (lines : List (List Char)) (a : String) : Option String :=
  (lookupLast (argBlocks lines) a).map (String.intercalate " ")

/-! ### Concrete callables used as test inputs -/

/-- `def cmd(xy=1, x=2)`: a two-character defaulted parameter followed by a
one-character defaulted parameter. -/
def cmdXYX : ArgSpec :=
  { args := ["xy", "x"]
    annotations := fun _ => none
    defaults0 := fun a =>
      if a = "xy" then some (.vInt 1) else if a = "x" then some (.vInt 2) else none
    overrides := fun _ => none
    arghelp := fun _ => none }

/-- `def cmd(ab=1, cd=2)`: two multi-character defaulted parameters with
disjoint letters. -/
def cmdABCD : ArgSpec :=
  { args := ["ab", "cd"]
    annotations := fun _ => none
    defaults0 := fun a =>
      if a = "ab" then some (.vInt 1) else if a = "cd" then some (.vInt 2) else none
    overrides := fun _ => none
    arghelp := fun _ => none }

/-- The override dict `{help: "O"}`. -/
def ovHelpO : Dict := fun k => if k = "help" then some (.vStr "O") else none

/-- A positional parameter `x` with the override `help="O"` and the
docstring help `"D"` recorded for it. -/
def cmdHelpClash : ArgSpec :=
  { args := ["x"]
    annotations := fun _ => none
    defaults0 := fun _ => none
    overrides := fun a => if a = "x" then some ovHelpO else none
    arghelp := fun a => if a = "x" then some "D" else none }

/-- The override dict `{type: int, help: "O"}`. -/
def ovTypedHelp : Dict := fun k =>
  if k = "type" then some (.vType .int)
  else if k = "help" then some (.vStr "O") else none

/-- A positional parameter `x` with the overrides `type=int, help="O"` and no
docstring help. -/
def cmdTypedOverride : ArgSpec :=
  { args := ["x"]
    annotations := fun _ => none
    defaults0 := fun _ => none
    overrides := fun a => if a = "x" then some ovTypedHelp else none
    arghelp := fun _ => none }

/-- `def cmd(aa, bb=1)`: one no-default parameter followed by one defaulted
parameter. -/
def cmdAABB : ArgSpec :=
  { args := ["aa", "bb"]
    annotations := fun _ => none
    defaults0 := fun a => if a = "bb" then some (.vInt 1) else none
    overrides := fun _ => none
    arghelp := fun _ => none }

/-- `def cmd(v: bool)`: an annotated boolean with no declared default. -/
def cmdBoolNoDefault : ArgSpec :=
  { args := ["v"]
    annotations := fun a => if a = "v" then some .bool else none
    defaults0 := fun _ => none
    overrides := fun _ => none
    arghelp := fun _ => none }

/-- `def cmd(neg=True)`: a literal boolean default `True`. -/
def cmdNegTrue : ArgSpec :=
  { args := ["neg"]
    annotations := fun _ => none
    defaults0 := fun a => if a = "neg" then some (.vBool true) else none
    overrides := fun _ => none
    arghelp := fun _ => none }

/-- An empty build state over the given defaults map. -/
def initState (A : ArgSpec) : BuildState :=
  { abbrevs := [], defaults := A.defaults0 }

/-- The override dict `{help: "A"}`. -/
def ovHelpA : Dict := dset dempty "help" (.vStr "A")

/-- The override dict `{help: "B"}`. -/
def ovHelpB : Dict := dset dempty "help" (.vStr "B")

/-- The override dict `{type: int}`. -/
def ovTypeInt : Dict := dset dempty "type" (.vType .int)

/-- An empty override store. -/
def emptyStore : OvStore := fun _ => none

/-- A sample override key. -/
def sampleKey : OvKey := (0, "p")

/-- The docstring used to exercise the docstring-parser theorem. -/
def witnessDoc : String := "T\n--x: a\n     b\nrest"

/-- The name shape of a named-option descriptor for parameter `a`: the
long form `--a` with an optional one-letter short form for a
multi-character name, the short form `-a` alone for a single-character
name. -/
def namedShapeFor (d : Desc) (a : String) : Prop :=
  if a.length > 1 then
    d.names = ["--" ++ a] ∨ ∃ c : Char, d.names = ["-" ++ c.toString, "--" ++ a]
  else d.names = ["-" ++ a]

/-! ### Theorems -/

theorem dset_apply (d : Dict) (k k2 : String) (v : PVal) :
    dset d k v k2 = if k2 = k then some v else d k2 := rfl

theorem dupdate_apply (d o : Dict) (k : String) :
    dupdate d o k =
      match o k with
      | some v => some v
      | none => d k := rfl

/-- Claim C10 (confirmed): the debug flag's default is the truthiness of the
raw string value of `QUARG_DEBUG` — true for every non-empty value,
including `"0"`, `"false"` and `"no"`, and false exactly when the variable
is unset or set to the empty string. -/
theorem C10_debug_default_truthiness (env : Option String) :
    quargDebugDefault none = false ∧
    quargDebugDefault (some "") = false ∧
    quargDebugDefault (some "0") = true ∧
    quargDebugDefault (some "false") = true ∧
    quargDebugDefault (some "no") = true ∧
    (quargDebugDefault env = true ↔ env ≠ none ∧ env ≠ some "") := by
  refine ⟨rfl, by decide, by decide, by decide, by decide, ?_⟩
  cases env with
  | none => simp [quargDebugDefault]
  | some s => simp [quargDebugDefault]

/-- Claim C9 (confirmed): an exception raised by the command body is caught
and never re-raised; the full traceback goes to standard error when the
debug flag was passed explicitly or defaulted true from the environment
toggle (the explicit flag sufficing on its own), otherwise only the
message; nothing goes to standard output; the exit status is 1 in all
cases. -/
theorem C9_exception_caught (flagGiven : Bool) (env : Option String)
    (filt : Option (PVal → Option String)) (e : Exn) :
    (invokeReport (quargDebug flagGiven env) filt (.error e)).reraised = none ∧
    (invokeReport (quargDebug flagGiven env) filt (.error e)).exitCode = 1 ∧
    (invokeReport (quargDebug flagGiven env) filt (.error e)).out = none ∧
    (invokeReport (quargDebug flagGiven env) filt (.error e)).err =
      some (if flagGiven then e.trace
            else if quargDebugDefault env then e.trace else e.msg) := by
  refine ⟨rfl, rfl, rfl, ?_⟩
  simp only [invokeReport, quargDebug]
  cases flagGiven <;> simp

/-- Claim C7 (counterexample): decorating the same callable a second time is
not ignored — the registry receives a duplicate entry instead of staying
unchanged. -/
theorem C7_counterexample :
    command (command ([] : List Nat) 7) 7 = [7, 7] ∧
    command (command ([] : List Nat) 7) 7 ≠ command ([] : List Nat) 7 := by
  constructor
  · rfl
  · simp [command]

/-- Claim C7 (amended, proved): decorating a callable appends it to the
command registry unconditionally, so registering a sequence of callables
(duplicates included) yields exactly that sequence in registration order;
a repeated decoration appends the callable again rather than being
ignored. -/
theorem C7_amended_registry_order (regs fs : List Nat) :
    fs.foldl command regs = regs ++ fs := by
  induction fs generalizing regs with
  | nil => simp
  | cons f rest ih =>
    simp only [List.foldl_cons, command, ih]
    simp

/-- Claim C6 (confirmed): registering override map A and then override map B
for the same (command, parameter) key merges key-by-key — keys present in
both take B's value, keys present in only one are retained; in particular
`{help:"A"}` then `{type:int}` keeps both fields, and `{help:"A"}` then
`{help:"B"}` yields help `"B"`. -/
theorem C6_override_merge (s : OvStore) (key : OvKey) (A B : Dict) (n : String) :
    ((arg_override (arg_override s key A) key B) key ≠ none ∧
     ((arg_override (arg_override s key A) key B) key).getD dempty n =
       (match B n with
        | some v => some v
        | none =>
          match A n with
          | some v => some v
          | none => ((s key).getD dempty) n)) ∧
    ((arg_override (arg_override emptyStore sampleKey ovHelpA) sampleKey ovTypeInt)
        sampleKey).getD dempty "help" = some (.vStr "A") ∧
    ((arg_override (arg_override emptyStore sampleKey ovHelpA) sampleKey ovTypeInt)
        sampleKey).getD dempty "type" = some (.vType .int) ∧
    ((arg_override (arg_override emptyStore sampleKey ovHelpA) sampleKey ovHelpB)
        sampleKey).getD dempty "help" = some (.vStr "B") := by
  refine ⟨⟨?_, ?_⟩, by decide, by decide, by decide⟩
  · simp [arg_override]
  · have h1 : (arg_override s key A) key = some (dupdate ((s key).getD dempty) A) := by
      simp [arg_override]
    have h2 : (arg_override (arg_override s key A) key B) key
        = some (dupdate (dupdate ((s key).getD dempty) A) B) := by
      simp [arg_override, h1]
    rw [h2, Option.getD_some]
    simp only [dupdate_apply]

/-- Claim C8 (counterexample): an unregistered command returning the
non-null empty string writes nothing to standard output, although its
default text form (plus newline) would be `"\n"`. -/
theorem C8_counterexample :
    (invokeReport false none (.ok (.vStr ""))).out = none ∧
    PVal.vStr "" ≠ PVal.vNone ∧
    default_output (.vStr "") = some "" := by
  refine ⟨rfl, by decide, by decide⟩

/-- Claim C8 (amended, proved): on success the dispatcher writes the
filtered value plus a trailing newline exactly when that value is a
non-suppressed, non-empty string; a command registered with the null output
filter writes nothing regardless of return value; an unregistered command
returning null writes nothing; and an unregistered command returning
non-null writes its default text form plus newline provided that text form
is non-empty (an empty text form writes nothing). -/
theorem C8_amended_output (debug : Bool) (filt : Option (PVal → Option String))
    (result : PVal) :
    (invokeReport debug (some nullOutputFn) (.ok result)).out = none ∧
    (invokeReport debug none (.ok .vNone)).out = none ∧
    (result ≠ .vNone → default_output.pyStr result ≠ "" →
      (invokeReport debug none (.ok result)).out =
        some (default_output.pyStr result ++ "\n")) ∧
    (∀ s, (invokeReport debug filt (.ok result)).out = some s ↔
      ∃ t, (filt.getD default_output) result = some t ∧ t ≠ "" ∧ s = t ++ "\n") := by
  refine ⟨rfl, rfl, ?_, ?_⟩
  · intro hnn hne
    simp [invokeReport, default_output, hnn, hne]
  · intro s
    simp only [invokeReport]
    cases h : (filt.getD default_output) result with
    | none => simp
    | some t =>
      by_cases ht : t = ""
      · subst ht
        simp
      · simp [ht, eq_comm]

/-- Claim C8 witness: the amended theorem applied to an unregistered command
returning the integer 3. -/
theorem C8_amended_output_witness :
    (invokeReport false none (.ok (.vInt 3))).out =
      some (default_output.pyStr (.vInt 3) ++ "\n") :=
  (C8_amended_output false none (.vInt 3)).2.2.1 (by decide) (by decide)

theorem nargsStage_apply (named : Bool) (p : Dict) (k : String) (hk : k ≠ "nargs") :
    (if named = false ∧ (p "default").isSome ∧ (p "nargs").isNone then
       dset p "nargs" (.vStr "?") else p) k = p k := by
  split
  · rw [dset_apply, if_neg hk]
  · rfl

theorem nargsStage_at_nargs (named : Bool) (p : Dict) (v : PVal)
    (h : p "nargs" = some v) :
    (if named = false ∧ (p "default").isSome ∧ (p "nargs").isNone then
       dset p "nargs" (.vStr "?") else p) "nargs" = some v := by
  have hc : ¬(named = false ∧ (p "default").isSome ∧ (p "nargs").isNone) := by
    simp [h]
  rw [if_neg hc]
  exact h

/-- Characterization of the post-processing stage (source lines 158-166)
for an arbitrary computed parameter dict. -/
theorem finishParams_lookup (A : ArgSpec) (a : String) (named : Bool) (params : Dict) :
    (∀ k v ov, A.overrides a = some ov → ov k = some v →
      (k = "help" → A.arghelp a = none) →
      finishParams A a named params k = some v) ∧
    (∀ h, A.arghelp a = some h →
      finishParams A a named params "help" = some (.vStr h)) ∧
    (∀ k, (∀ ov, A.overrides a = some ov → ov k = none) →
      k ≠ "help" → k ≠ "nargs" →
      finishParams A a named params k = params k) := by
  refine ⟨?_, ?_, ?_⟩
  · intro k v ov hov hk hhelp
    simp only [finishParams, hov]
    have h1 : dupdate params ov k = some v := by rw [dupdate_apply, hk]
    cases harg : A.arghelp a with
    | none =>
      by_cases hkn : k = "nargs"
      · subst hkn; exact nargsStage_at_nargs _ _ _ h1
      · rw [nargsStage_apply _ _ _ hkn]; exact h1
    | some h =>
      have hk2 : k ≠ "help" := by
        intro he
        rw [hhelp he] at harg
        exact Option.noConfusion harg
      have h2 : dset (dupdate params ov) "help" (.vStr h) k = some v := by
        rw [dset_apply, if_neg hk2]; exact h1
      by_cases hkn : k = "nargs"
      · subst hkn; exact nargsStage_at_nargs _ _ _ h2
      · rw [nargsStage_apply _ _ _ hkn]; exact h2
  · intro h harg
    have hne : ("help" : String) ≠ "nargs" := by decide
    cases hov : A.overrides a with
    | none =>
      simp only [finishParams, hov, harg]
      rw [nargsStage_apply _ _ _ hne, dset_apply, if_pos rfl]
    | some ov =>
      simp only [finishParams, hov, harg]
      rw [nargsStage_apply _ _ _ hne, dset_apply, if_pos rfl]
  · intro k hov hkh hkn
    cases hov2 : A.overrides a with
    | none =>
      cases harg : A.arghelp a with
      | none =>
        simp only [finishParams, hov2, harg]
        rw [nargsStage_apply _ _ _ hkn]
      | some h =>
        simp only [finishParams, hov2, harg]
        rw [nargsStage_apply _ _ _ hkn, dset_apply, if_neg hkh]
    | some ov =>
      have h1 : dupdate params ov k = params k := by
        rw [dupdate_apply, hov ov hov2]
      cases harg : A.arghelp a with
      | none =>
        simp only [finishParams, hov2, harg]
        rw [nargsStage_apply _ _ _ hkn]
        exact h1
      | some h =>
        simp only [finishParams, hov2, harg]
        rw [nargsStage_apply _ _ _ hkn, dset_apply, if_neg hkh]
        exact h1

/-- Claim C1 (counterexample): for the parameter `x` with recorded override
`help="O"` and docstring help `"D"`, the finished descriptor carries the
docstring help `"D"` — the override-supplied help value has been
replaced. -/
theorem C1_counterexample :
    ((cmdHelpClash.overrides "x").getD dempty) "help" = some (.vStr "O") ∧
    ((makeParser cmdHelpClash).map (fun d => d.params "help")) = [some (.vStr "D")] := by
  exact ⟨by decide, by decide⟩

/-- Claim C1 (amended, proved): override entries for (callable, parameter)
are applied after the computed descriptor fields and win key-by-key over
them, and fields named neither in the override nor set by the later steps
keep their computed values; however the per-argument docstring help is
attached after the overrides and unconditionally, so it replaces an
override-supplied help value (and a positional that owes its default to an
override additionally gains the synthesized arity key). -/
theorem C1_amended_override_precedence (A : ArgSpec) (st : BuildState) (a : String) :
    (∀ k v ov, A.overrides a = some ov → ov k = some v →
      (k = "help" → A.arghelp a = none) →
      (processArg A st a).2.params k = some v) ∧
    (∀ h, A.arghelp a = some h →
      (processArg A st a).2.params "help" = some (.vStr h)) ∧
    (∀ k, (∀ ov, A.overrides a = some ov → ov k = none) →
      k ≠ "help" → k ≠ "nargs" →
      (processArg A st a).2.params k = (computeArg A st a).params k) := by
  have h := finishParams_lookup A a (computeArg A st a).named (computeArg A st a).params
  simpa [processArg] using h

/-- Claim C1 witness: the amended theorem applied to the parameter `x`
carrying the overrides `type=int, help="O"` and no docstring help — both
override values survive into the finished descriptor. -/
theorem C1_amended_override_precedence_witness :
    (processArg cmdTypedOverride (initState cmdTypedOverride) "x").2.params "type" =
      some (.vType .int) ∧
    (processArg cmdTypedOverride (initState cmdTypedOverride) "x").2.params "help" =
      some (.vStr "O") := by
  constructor
  · exact (C1_amended_override_precedence cmdTypedOverride
      (initState cmdTypedOverride) "x").1 "type" (.vType .int) ovTypedHelp
      rfl (by decide) (fun hcontra => absurd hcontra (by decide))
  · exact (C1_amended_override_precedence cmdTypedOverride
      (initState cmdTypedOverride) "x").1 "help" (.vStr "O") ovTypedHelp
      rfl (by decide) (fun _ => rfl)

theorem updDefaults_bool_self (A : ArgSpec) (st : BuildState) (a : String)
    (hann : A.annotations a = some .bool) :
    updDefaults A st a a = some (.vBool false) := by
  simp [updDefaults, hann]

theorem updDefaults_not_bool (A : ArgSpec) (st : BuildState) (a : String)
    (hann : A.annotations a ≠ some .bool) :
    updDefaults A st a = st.defaults := by
  simp [updDefaults, hann]

theorem updDefaults_isSome (A : ArgSpec) (st : BuildState) (a b : String)
    (h : (st.defaults b).isSome) : (updDefaults A st a b).isSome := by
  unfold updDefaults
  split
  · by_cases hb : b = a <;> simp [hb, h]
  · exact h

theorem computeArg_annotated_bool (A : ArgSpec) (st : BuildState) (a : String)
    (hann : A.annotations a = some .bool) :
    (computeArg A st a).named = true ∧
    (computeArg A st a).params "default" = some (.vBool false) ∧
    (computeArg A st a).params "action" = some (.vStr "store_true") ∧
    (computeArg A st a).params "nargs" = none := by
  simp [computeArg, hann, updDefaults_bool_self A st a hann, dset_apply, dempty, pyTruthy]

theorem computeArg_literal_bool (A : ArgSpec) (st : BuildState) (a : String)
    (hann : A.annotations a = none) (b : Bool)
    (hd : st.defaults a = some (.vBool b)) :
    (computeArg A st a).named = true ∧
    (computeArg A st a).params "default" = some (.vBool b) ∧
    (computeArg A st a).params "action" =
      some (.vStr (if b then "store_false" else "store_true")) ∧
    (computeArg A st a).params "nargs" = none := by
  have hu : updDefaults A st a = st.defaults :=
    updDefaults_not_bool A st a (by simp [hann])
  cases b <;> simp [computeArg, hann, hu, hd, dset_apply, dempty, pyTruthy, pyTypeOf]

theorem actionTypeStage_other (params : Dict) (v : PVal) (w : PyType → PVal)
    (argtype : Option PyType) (k : String) (hk1 : k ≠ "action") (hk2 : k ≠ "type") :
    (if argtype = some PyType.bool then dset params "action" v
     else
       match argtype with
       | some t => dset params "type" (w t)
       | none => params) k = params k := by
  split
  · rw [dset_apply, if_neg hk1]
  · cases argtype with
    | some t =>
      show dset params "type" (w t) k = params k
      rw [dset_apply, if_neg hk2]
    | none => rfl

theorem computeArg_named_fields (A : ArgSpec) (st : BuildState) (a : String)
    (d : PVal) (hd : updDefaults A st a a = some d) :
    (computeArg A st a).named = true ∧
    (computeArg A st a).names = (namesFor a (abbrevs0 st a)).1 ∧
    (computeArg A st a).abbrevs = (namesFor a (abbrevs0 st a)).2 ∧
    (computeArg A st a).params "default" = some d := by
  refine ⟨?_, ?_, ?_, ?_⟩
  · simp only [computeArg, hd]
  · simp only [computeArg, hd]
  · simp only [computeArg, hd]
  · simp only [computeArg, hd]
    rw [actionTypeStage_other _ _ _ _ _ (by decide) (by decide), dset_apply, if_pos rfl]

theorem computeArg_positional_fields (A : ArgSpec) (st : BuildState) (a : String)
    (hd : updDefaults A st a a = none) :
    (computeArg A st a).named = false ∧
    (computeArg A st a).names = [a] ∧
    (computeArg A st a).abbrevs = abbrevs0 st a ∧
    ∀ k, k ≠ "action" → k ≠ "type" → (computeArg A st a).params k = none := by
  refine ⟨?_, ?_, ?_, ?_⟩
  · simp only [computeArg, hd]
  · simp only [computeArg, hd]
  · simp only [computeArg, hd]
  · intro k hk1 hk2
    simp only [computeArg, hd]
    rw [actionTypeStage_other _ _ _ _ _ hk1 hk2]
    rfl

theorem namesFor_namedShape (a : String) (ab : List Char) (d : Desc)
    (hd : d.names = (namesFor a ab).1) : namedShapeFor d a := by
  unfold namedShapeFor
  unfold namesFor at hd
  by_cases h : a.length > 1
  · rw [if_pos h]
    rw [if_pos h] at hd
    dsimp only at hd
    cases hf : (a.data.flatMap fun c => [c.toLower, c.toUpper]).find?
        (fun c => !(ab.contains c)) with
    | some c =>
      rw [hf] at hd
      exact Or.inr ⟨c, hd⟩
    | none =>
      rw [hf] at hd
      exact Or.inl hd
  · rw [if_neg h]
    rw [if_neg h] at hd
    exact hd

theorem finishParams_no_override (A : ArgSpec) (a : String) (named : Bool)
    (params : Dict) (k : String) (hov : A.overrides a = none)
    (hkh : k ≠ "help") (hkn : k ≠ "nargs") :
    finishParams A a named params k = params k :=
  (finishParams_lookup A a named params).2.2 k
    (fun ov h => by rw [hov] at h; exact Option.noConfusion h) hkh hkn

theorem processArg_params_eq (A : ArgSpec) (st : BuildState) (a : String) :
    (processArg A st a).2.params =
      finishParams A a (computeArg A st a).named (computeArg A st a).params := rfl

theorem processArg_names_eq (A : ArgSpec) (st : BuildState) (a : String) :
    (processArg A st a).2.names = (computeArg A st a).names := rfl

/-- Claim C4 (confirmed): for a parameter whose type is boolean — from a
type annotation or inferred from a literal boolean default — the
descriptor's effective default false gives a `store_true` flag (presence
parses to true, absence to false), effective default true gives a
`store_false` flag (presence parses to false, absence to true), and an
annotated boolean with no declared default is synthesized with default
false and still exposed as a named flag. -/
theorem C4_boolean_flip (A : ArgSpec) (st : BuildState) (a : String)
    (hov : A.overrides a = none)
    (hbool : A.annotations a = some .bool ∨
             (A.annotations a = none ∧ ∃ b, st.defaults a = some (.vBool b))) :
    ((processArg A st a).2.params "default" = some (.vBool false) →
      (processArg A st a).2.params "action" = some (.vStr "store_true") ∧
      flagParse (processArg A st a).2 true = some (.vBool true) ∧
      flagParse (processArg A st a).2 false = some (.vBool false)) ∧
    ((processArg A st a).2.params "default" = some (.vBool true) →
      (processArg A st a).2.params "action" = some (.vStr "store_false") ∧
      flagParse (processArg A st a).2 true = some (.vBool false) ∧
      flagParse (processArg A st a).2 false = some (.vBool true)) ∧
    (A.annotations a = some .bool → st.defaults a = none →
      (processArg A st a).2.params "default" = some (.vBool false) ∧
      namedShapeFor (processArg A st a).2 a) := by
  have hpd : (processArg A st a).2.params "default" =
      (computeArg A st a).params "default" := by
    rw [processArg_params_eq]
    exact finishParams_no_override A a _ _ "default" hov (by decide) (by decide)
  have hpa : (processArg A st a).2.params "action" =
      (computeArg A st a).params "action" := by
    rw [processArg_params_eq]
    exact finishParams_no_override A a _ _ "action" hov (by decide) (by decide)
  rcases hbool with hann | ⟨hann, b, hdb⟩
  · obtain ⟨h1, h2, h3, h4⟩ := computeArg_annotated_bool A st a hann
    have hd' : (processArg A st a).2.params "default" = some (.vBool false) :=
      hpd.trans h2
    have ha' : (processArg A st a).2.params "action" = some (.vStr "store_true") :=
      hpa.trans h3
    refine ⟨?_, ?_, ?_⟩
    · intro _
      exact ⟨ha', by simp [flagParse, ha'], by simp [flagParse, ha', hd']⟩
    · intro hcontra
      rw [hd'] at hcontra
      exact absurd hcontra (by decide)
    · intro _ _
      refine ⟨hd', ?_⟩
      apply namesFor_namedShape a (abbrevs0 st a)
      rw [processArg_names_eq]
      exact (computeArg_named_fields A st a _ (updDefaults_bool_self A st a hann)).2.1
  · obtain ⟨h1, h2, h3, h4⟩ := computeArg_literal_bool A st a hann b hdb
    have hd' : (processArg A st a).2.params "default" = some (.vBool b) :=
      hpd.trans h2
    have ha' : (processArg A st a).2.params "action" =
        some (.vStr (if b then "store_false" else "store_true")) :=
      hpa.trans h3
    refine ⟨?_, ?_, ?_⟩
    · intro hfd
      have hb : b = false := by
        rw [hd'] at hfd
        exact PVal.vBool.inj (Option.some.inj hfd)
      subst hb
      simp only [if_neg Bool.false_ne_true] at ha'
      exact ⟨ha', by simp [flagParse, ha'], by simp [flagParse, ha', hd']⟩
    · intro hfd
      have hb : b = true := by
        rw [hd'] at hfd
        exact PVal.vBool.inj (Option.some.inj hfd)
      subst hb
      simp only [if_pos rfl] at ha'
      exact ⟨ha', by simp [flagParse, ha'], by simp [flagParse, ha', hd']⟩
    · intro h5 _
      rw [hann] at h5
      exact Option.noConfusion h5

/-- Claim C4 witness: the theorem applied to `def cmd(v: bool)` (annotated
boolean, no declared default: a `store_true` flag defaulting to false) and
to `def cmd(neg=True)` (literal boolean default true: a `store_false` flag
whose absence yields true). -/
theorem C4_boolean_flip_witness :
    (flagParse (processArg cmdBoolNoDefault (initState cmdBoolNoDefault) "v").2 false =
      some (.vBool false) ∧
     namedShapeFor (processArg cmdBoolNoDefault (initState cmdBoolNoDefault) "v").2 "v") ∧
    flagParse (processArg cmdNegTrue (initState cmdNegTrue) "neg").2 false =
      some (.vBool true) := by
  constructor
  · constructor
    · exact ((C4_boolean_flip cmdBoolNoDefault (initState cmdBoolNoDefault) "v"
        rfl (Or.inl rfl)).1 (by decide)).2.2
    · exact ((C4_boolean_flip cmdBoolNoDefault (initState cmdBoolNoDefault) "v"
        rfl (Or.inl rfl)).2.2 rfl rfl).2
  · exact ((C4_boolean_flip cmdNegTrue (initState cmdNegTrue) "neg"
      rfl (Or.inr ⟨rfl, true, rfl⟩)).2.1 (by decide)).2.2

theorem finishParams_nargs_no_default (A : ArgSpec) (a : String) (named : Bool)
    (params : Dict) (hov : A.overrides a = none) (hd : params "default" = none) :
    finishParams A a named params "nargs" = params "nargs" := by
  simp only [finishParams, hov]
  cases harg : A.arghelp a with
  | none =>
    rw [if_neg (by simp [hd])]
  | some h =>
    show (if named = false ∧ (dset params "help" (PVal.vStr h) "default").isSome ∧
        (dset params "help" (PVal.vStr h) "nargs").isNone then
      dset (dset params "help" (PVal.vStr h)) "nargs" (PVal.vStr "?")
    else dset params "help" (PVal.vStr h)) "nargs" = params "nargs"
    rw [if_neg (by simp [dset_apply, hd]), dset_apply, if_neg (by decide)]

theorem processArg_defaults_eq (A : ArgSpec) (st : BuildState) (a : String) :
    (processArg A st a).1.defaults = updDefaults A st a := rfl

theorem processArg_abbrevs_eq (A : ArgSpec) (st : BuildState) (a : String) :
    (processArg A st a).1.abbrevs = (computeArg A st a).abbrevs := rfl

theorem processArg_positional (A : ArgSpec) (st : BuildState) (a : String)
    (hov : A.overrides a = none) (hd : st.defaults a = none)
    (hann : A.annotations a ≠ some .bool) :
    (processArg A st a).2.names = [a] ∧
    (processArg A st a).2.params "default" = none ∧
    (processArg A st a).2.params "nargs" = none ∧
    (processArg A st a).1.defaults = st.defaults := by
  have hu : updDefaults A st a = st.defaults := updDefaults_not_bool A st a hann
  have hd2 : updDefaults A st a a = none := by rw [hu]; exact hd
  obtain ⟨h1, h2, h3, h4⟩ := computeArg_positional_fields A st a hd2
  have hcd : (computeArg A st a).params "default" = none :=
    h4 "default" (by decide) (by decide)
  refine ⟨?_, ?_, ?_, ?_⟩
  · rw [processArg_names_eq]; exact h2
  · rw [processArg_params_eq,
      finishParams_no_override A a _ _ "default" hov (by decide) (by decide)]
    exact hcd
  · rw [processArg_params_eq, finishParams_nargs_no_default A a _ _ hov hcd]
    exact h4 "nargs" (by decide) (by decide)
  · rw [processArg_defaults_eq]; exact hu

theorem processArg_named (A : ArgSpec) (st : BuildState) (a : String)
    (hov : A.overrides a = none)
    (hd : (st.defaults a).isSome ∨ A.annotations a = some .bool) :
    ((processArg A st a).2.params "default").isSome ∧
    namedShapeFor (processArg A st a).2 a ∧
    (∀ b, (st.defaults b).isSome → ((processArg A st a).1.defaults b).isSome) := by
  have hds : ∃ d, updDefaults A st a a = some d := by
    by_cases hann : A.annotations a = some PyType.bool
    · exact ⟨.vBool false, updDefaults_bool_self A st a hann⟩
    · rcases hd with h | h
      · rw [updDefaults_not_bool A st a hann]
        exact Option.isSome_iff_exists.mp h
      · exact absurd h hann
  obtain ⟨d, hds⟩ := hds
  obtain ⟨h1, h2, h3, h4⟩ := computeArg_named_fields A st a d hds
  refine ⟨?_, ?_, ?_⟩
  · rw [processArg_params_eq,
      finishParams_no_override A a _ _ "default" hov (by decide) (by decide), h4]
    rfl
  · exact namesFor_namedShape a (abbrevs0 st a) _ (by rw [processArg_names_eq]; exact h2)
  · intro b hb
    rw [processArg_defaults_eq]
    exact updDefaults_isSome A st a b hb

theorem processArgs_cons (A : ArgSpec) (a : String) (rest : List String)
    (st : BuildState) :
    processArgs A (a :: rest) st =
      ((processArgs A rest (processArg A st a).1).1,
       (processArg A st a).2 :: (processArgs A rest (processArg A st a).1).2) := rfl

theorem processArgs_length (A : ArgSpec) (l : List String) :
    ∀ st : BuildState, ((processArgs A l st).2).length = l.length := by
  induction l with
  | nil => intro st; rfl
  | cons a rest ih =>
    intro st
    rw [processArgs_cons]
    simp [ih]

theorem processArgs_append (A : ArgSpec) (xs ys : List String) :
    ∀ st : BuildState,
    (processArgs A (xs ++ ys) st).2 =
      (processArgs A xs st).2 ++ (processArgs A ys (processArgs A xs st).1).2 := by
  induction xs with
  | nil => intro st; rfl
  | cons a rest ih =>
    intro st
    simp only [List.cons_append, processArgs_cons, ih]

theorem processArgs_positional_phase (A : ArgSpec) (hov : ∀ a, A.overrides a = none) :
    ∀ (xs : List String) (st : BuildState),
    (∀ a ∈ xs, st.defaults a = none ∧ A.annotations a ≠ some PyType.bool) →
    (processArgs A xs st).1.defaults = st.defaults ∧
    ∀ i, i < xs.length →
      ((processArgs A xs st).2.getD i dummyDesc).names = [xs.getD i ""] ∧
      ((processArgs A xs st).2.getD i dummyDesc).params "default" = none ∧
      ((processArgs A xs st).2.getD i dummyDesc).params "nargs" = none := by
  intro xs
  induction xs with
  | nil =>
    intro st _
    exact ⟨rfl, fun i hi => absurd hi (by simp)⟩
  | cons a rest ih =>
    intro st hxs
    have ha := hxs a (List.mem_cons_self a rest)
    obtain ⟨hn, hpd, hpn, hdf⟩ := processArg_positional A st a (hov a) ha.1 ha.2
    have hrest : ∀ b ∈ rest,
        (processArg A st a).1.defaults b = none ∧ A.annotations b ≠ some PyType.bool := by
      intro b hb
      rw [hdf]
      exact hxs b (List.mem_cons_of_mem a hb)
    obtain ⟨ihd, ihi⟩ := ih (processArg A st a).1 hrest
    constructor
    · rw [processArgs_cons]
      dsimp only
      rw [ihd, hdf]
    · intro i hi
      cases i with
      | zero =>
        rw [processArgs_cons]
        simpa using ⟨hn, hpd, hpn⟩
      | succ j =>
        have hj : j < rest.length := by simpa using hi
        rw [processArgs_cons]
        simpa using ihi j hj

theorem processArgs_named_phase (A : ArgSpec) (hov : ∀ a, A.overrides a = none) :
    ∀ (ys : List String) (st : BuildState),
    (∀ a ∈ ys, (st.defaults a).isSome) →
    ∀ i, i < ys.length →
      (((processArgs A ys st).2.getD i dummyDesc).params "default").isSome ∧
      namedShapeFor ((processArgs A ys st).2.getD i dummyDesc) (ys.getD i "") := by
  intro ys
  induction ys with
  | nil =>
    intro st _ i hi
    exact absurd hi (by simp)
  | cons a rest ih =>
    intro st hys
    have ha := hys a (List.mem_cons_self a rest)
    obtain ⟨hpd, hshape, hpres⟩ := processArg_named A st a (hov a) (Or.inl ha)
    have hrest : ∀ b ∈ rest, ((processArg A st a).1.defaults b).isSome := by
      intro b hb
      exact hpres b (hys b (List.mem_cons_of_mem a hb))
    intro i hi
    cases i with
    | zero =>
      rw [processArgs_cons]
      simpa using ⟨hpd, hshape⟩
    | succ j =>
      have hj : j < rest.length := by simpa using hi
      rw [processArgs_cons]
      simpa using ih (processArg A st a).1 hrest j hj

/-- Claim C3 (confirmed): for a callable whose parameter list is n
no-default non-boolean parameters followed by m defaulted parameters, the
builder emits exactly n + m descriptors in declaration order: the first n
are bare-name required positionals (no default, no arity marker) and the
last m are named options carrying a default, one per parameter. -/
theorem C3_positional_named_split (A : ArgSpec) (xs ys : List String)
    (hargs : A.args = xs ++ ys)
    (hov : A.overrides = fun _ => none)
    (hxs : ∀ a ∈ xs, A.defaults0 a = none ∧ A.annotations a ≠ some PyType.bool)
    (hys : ∀ a ∈ ys, (A.defaults0 a).isSome) :
    (makeParser A).length = xs.length + ys.length ∧
    (∀ i, i < xs.length →
      ((makeParser A).getD i dummyDesc).names = [xs.getD i ""] ∧
      ((makeParser A).getD i dummyDesc).params "default" = none ∧
      ((makeParser A).getD i dummyDesc).params "nargs" = none) ∧
    (∀ i, i < ys.length →
      (((makeParser A).getD (xs.length + i) dummyDesc).params "default").isSome ∧
      namedShapeFor ((makeParser A).getD (xs.length + i) dummyDesc) (ys.getD i "")) := by
  have hova : ∀ a, A.overrides a = none := fun a => by rw [hov]
  have hmk : makeParser A =
      (processArgs A xs { abbrevs := [], defaults := A.defaults0 }).2 ++
      (processArgs A ys
        (processArgs A xs { abbrevs := [], defaults := A.defaults0 }).1).2 := by
    unfold makeParser
    rw [hargs, processArgs_append]
  obtain ⟨hPdef, hPidx⟩ := processArgs_positional_phase A hova xs
    { abbrevs := [], defaults := A.defaults0 } (fun a ha => (hxs a ha))
  have hQ := processArgs_named_phase A hova ys
    (processArgs A xs { abbrevs := [], defaults := A.defaults0 }).1
    (by intro a ha; rw [hPdef]; exact hys a ha)
  have hPlen : (processArgs A xs { abbrevs := [], defaults := A.defaults0 }).2.length
      = xs.length := processArgs_length A xs _
  have hQlen : (processArgs A ys
      (processArgs A xs { abbrevs := [], defaults := A.defaults0 }).1).2.length
      = ys.length := processArgs_length A ys _
  refine ⟨?_, ?_, ?_⟩
  · rw [hmk, List.length_append, hPlen, hQlen]
  · intro i hi
    rw [hmk, List.getD_append _ _ _ _ (by rw [hPlen]; exact hi)]
    exact hPidx i hi
  · intro i hi
    rw [hmk, List.getD_append_right _ _ _ _ (by rw [hPlen]; exact Nat.le_add_right _ _)]
    rw [hPlen, Nat.add_sub_cancel_left]
    exact hQ i hi

/-- Claim C3 witness: the theorem applied to `def cmd(aa, bb=1)` — one
required positional `aa` followed by one named option for `bb`. -/
theorem C3_positional_named_split_witness :
    (makeParser cmdAABB).length = 1 + 1 ∧
    (∀ i, i < 1 →
      ((makeParser cmdAABB).getD i dummyDesc).names = [List.getD ["aa"] i ""] ∧
      ((makeParser cmdAABB).getD i dummyDesc).params "default" = none ∧
      ((makeParser cmdAABB).getD i dummyDesc).params "nargs" = none) ∧
    (∀ i, i < 1 →
      (((makeParser cmdAABB).getD (1 + i) dummyDesc).params "default").isSome ∧
      namedShapeFor ((makeParser cmdAABB).getD (1 + i) dummyDesc)
        (List.getD ["bb"] i "")) := by
  exact C3_positional_named_split cmdAABB ["aa"] ["bb"] rfl rfl
    (by decide) (by decide)

theorem mem_addChar_of_mem (s : List Char) (c c2 : Char) (h : c ∈ s) :
    c ∈ addChar s c2 := by
  unfold addChar
  split
  · exact h
  · exact List.mem_cons_of_mem _ h

theorem mem_addChar_self (s : List Char) (c : Char) : c ∈ addChar s c := by
  unfold addChar
  split
  · assumption
  · exact List.mem_cons_self _ _

theorem abbrevs0_mono (st : BuildState) (a : String) (c : Char)
    (h : c ∈ st.abbrevs) : c ∈ abbrevs0 st a := by
  unfold abbrevs0
  split
  · exact mem_addChar_of_mem _ _ _ h
  · exact h

theorem namesFor_snd_mono (a : String) (ab : List Char) (c : Char)
    (h : c ∈ ab) : c ∈ (namesFor a ab).2 := by
  unfold namesFor
  split
  · dsimp only
    cases hf : (a.data.flatMap fun x => [x.toLower, x.toUpper]).find?
        (fun x => !(ab.contains x)) with
    | some c2 => exact mem_addChar_of_mem _ _ _ h
    | none => exact h
  · exact h

theorem computeArg_abbrevs_cases (A : ArgSpec) (st : BuildState) (a : String) :
    (computeArg A st a).abbrevs = (namesFor a (abbrevs0 st a)).2 ∨
    (computeArg A st a).abbrevs = abbrevs0 st a := by
  cases hD : updDefaults A st a a with
  | some d =>
    left
    simp only [computeArg, hD]
  | none =>
    right
    simp only [computeArg, hD]

theorem computeArg_abbrevs_mono (A : ArgSpec) (st : BuildState) (a : String)
    (c : Char) (h : c ∈ st.abbrevs) : c ∈ (computeArg A st a).abbrevs := by
  rcases computeArg_abbrevs_cases A st a with he | he <;> rw [he]
  · exact namesFor_snd_mono _ _ _ (abbrevs0_mono _ _ _ h)
  · exact abbrevs0_mono _ _ _ h

theorem claimedShort_processArg (A : ArgSpec) (st : BuildState) (a : String)
    (s : String) (h : claimedShort (processArg A st a).2 = some s) :
    ∃ c : Char, s = "-" ++ c.toString ∧ c ∉ st.abbrevs ∧
      c ∈ (computeArg A st a).abbrevs := by
  unfold claimedShort at h
  rw [processArg_names_eq] at h
  cases hD : updDefaults A st a a with
  | none =>
    obtain ⟨_, h2, _, _⟩ := computeArg_positional_fields A st a hD
    rw [h2] at h
    simp at h
  | some d =>
    obtain ⟨_, h2, h3, _⟩ := computeArg_named_fields A st a d hD
    rw [h2] at h
    unfold namesFor at h
    by_cases hlen : a.length > 1
    · rw [if_pos hlen] at h
      dsimp only at h
      cases hf : (a.data.flatMap fun x => [x.toLower, x.toUpper]).find?
          (fun x => !((abbrevs0 st a).contains x)) with
      | some c =>
        rw [hf] at h
        simp at h
        refine ⟨c, h.symm, ?_, ?_⟩
        · intro hc
          have hp := List.find?_some hf
          simp at hp
          exact hp (abbrevs0_mono st a c hc)
        · rw [h3]
          unfold namesFor
          rw [if_pos hlen]
          dsimp only
          rw [hf]
          exact mem_addChar_self _ _
      | none =>
        rw [hf] at h
        simp at h
    · rw [if_neg hlen] at h
      simp at h

theorem string_dash_char (s : String) (c : Char) (h : s = "-" ++ c.toString) :
    s.data = ['-', c] := by
  rw [h]
  rfl

theorem processArg_names_chars (A : ArgSpec) (st : BuildState) (a : String)
    (ha1 : a ≠ "") (ha2 : '-' ∉ a.data) (s : String) (c : Char)
    (hs : s ∈ (processArg A st a).2.names) (hform : s = "-" ++ c.toString) :
    c ∈ (computeArg A st a).abbrevs := by
  have hdata : s.data = ['-', c] := string_dash_char s c hform
  have hadata : a ≠ "" → a.data ≠ [] := by
    intro hne hcontra
    exact hne (String.ext hcontra)
  rw [processArg_names_eq] at hs
  cases hD : updDefaults A st a a with
  | none =>
    obtain ⟨_, h2, _, _⟩ := computeArg_positional_fields A st a hD
    rw [h2] at hs
    simp at hs
    rw [hs] at hdata
    exact absurd (by rw [hdata]; exact List.mem_cons_self _ _ : '-' ∈ a.data) ha2
  | some d =>
    obtain ⟨_, h2, h3, _⟩ := computeArg_named_fields A st a d hD
    rw [h2] at hs
    unfold namesFor at hs h3
    by_cases hlen : a.length > 1
    · rw [if_pos hlen] at hs h3
      dsimp only at hs h3
      cases hf : (a.data.flatMap fun x => [x.toLower, x.toUpper]).find?
          (fun x => !((abbrevs0 st a).contains x)) with
      | some c2 =>
        rw [hf] at hs h3
        simp at hs
        rcases hs with hs | hs
        · have : ('-' :: [c] : List Char) = '-' :: [c2] := by
            rw [← hdata, hs]
            rfl
          have hcc : c = c2 := by simpa using this
          rw [h3, hcc]
          exact mem_addChar_self _ _
        · rw [hs] at hdata
          have : ('-' :: '-' :: a.data : List Char) = ['-', c] := by
            rw [← hdata]
            rfl
          simp at this
          exact absurd this.2 (hadata ha1)
      | none =>
        rw [hf] at hs h3
        simp at hs
        rw [hs] at hdata
        have : ('-' :: '-' :: a.data : List Char) = ['-', c] := by
          rw [← hdata]
          rfl
        simp at this
        exact absurd this.2 (hadata ha1)
    · rw [if_neg hlen] at hs h3
      simp at hs
      rw [hs] at hdata
      have hac : a.data = [c] := by
        have : ('-' :: a.data : List Char) = ['-', c] := by
          rw [← hdata]
          rfl
        simpa using this
      have hlen1 : a.length = 1 := by
        show a.data.length = 1
        rw [hac]
        rfl
      rw [h3]
      unfold abbrevs0
      rw [if_pos hlen1, hac]
      exact mem_addChar_self _ _

theorem processArgs_abbrevs_mono (A : ArgSpec) (l : List String) :
    ∀ (st : BuildState) (c : Char), c ∈ st.abbrevs →
      c ∈ (processArgs A l st).1.abbrevs := by
  induction l with
  | nil => intro st c h; exact h
  | cons a rest ih =>
    intro st c h
    rw [processArgs_cons]
    exact ih _ c (computeArg_abbrevs_mono A st a c h)

theorem processArgs_claimed (A : ArgSpec) (l : List String) :
    ∀ (st : BuildState) (j : Nat) (dj : Desc) (s : String),
      (processArgs A l st).2.get? j = some dj →
      claimedShort dj = some s →
      ∃ c : Char, s = "-" ++ c.toString ∧ c ∉ st.abbrevs := by
  induction l with
  | nil =>
    intro st j dj s hget _
    simp [processArgs] at hget
  | cons a rest ih =>
    intro st j dj s hget hcl
    rw [processArgs_cons] at hget
    cases j with
    | zero =>
      have hd0 : (processArg A st a).2 = dj := Option.some.inj hget
      rw [← hd0] at hcl
      obtain ⟨c, hc1, hc2, _⟩ := claimedShort_processArg A st a s hcl
      exact ⟨c, hc1, hc2⟩
    | succ j2 =>
      obtain ⟨c, hc1, hc2⟩ := ih (processArg A st a).1 j2 dj s hget hcl
      refine ⟨c, hc1, fun hc => hc2 ?_⟩
      exact computeArg_abbrevs_mono A st a c hc

theorem processArgs_no_collision (A : ArgSpec) (l : List String) :
    ∀ (st : BuildState),
      (∀ a ∈ l, a ≠ "" ∧ '-' ∉ a.data) →
      ∀ (i j : Nat) (di dj : Desc) (s : String), i < j →
        (processArgs A l st).2.get? i = some di →
        (processArgs A l st).2.get? j = some dj →
        claimedShort dj = some s → s ∉ di.names := by
  induction l with
  | nil =>
    intro st _ i j di dj s _ hgi _ _
    simp [processArgs] at hgi
  | cons a rest ih =>
    intro st hids i j di dj s hij hgi hgj hcl
    rw [processArgs_cons] at hgi hgj
    cases i with
    | zero =>
      have hgi2 : (processArg A st a).2 = di := Option.some.inj hgi
      cases j with
      | zero => exact absurd hij (by simp)
      | succ j2 =>
        intro hmem
        obtain ⟨c, hc1, hc2⟩ :=
          processArgs_claimed A rest (processArg A st a).1 j2 dj s hgj hcl
        have hmem2 : s ∈ (processArg A st a).2.names := by rw [hgi2]; exact hmem
        have ha := hids a (List.mem_cons_self a rest)
        have : c ∈ (computeArg A st a).abbrevs :=
          processArg_names_chars A st a ha.1 ha.2 s c hmem2 hc1
        exact hc2 this
    | succ i2 =>
      cases j with
      | zero => exact absurd hij (by simp)
      | succ j2 =>
        exact ih (processArg A st a).1
          (fun b hb => hids b (List.mem_cons_of_mem a hb))
          i2 j2 di dj s (Nat.lt_of_succ_lt_succ hij) hgi hgj hcl

/-- Claim C2 (counterexample): for `def cmd(xy=1, x=2)` the builder claims
the short flag `-x` for `xy`, and the later single-character named
parameter `x` is spelled `-x` as well — a short flag collides with a
full-name spelling of the same command. -/
theorem C2_counterexample :
    ((makeParser cmdXYX).map Desc.names) = [["-x", "--xy"], ["-x"]] ∧
    claimedShort ((makeParser cmdXYX).getD 0 dummyDesc) = some "-x" ∧
    "-x" ∈ ((makeParser cmdXYX).getD 1 dummyDesc).names := by
  refine ⟨by decide, by decide, by decide⟩

/-- Claim C2 (amended, proved): within one command, a short abbreviation
flag claimed for a named option never equals any spelling — short flag,
long form, or single-character full name — of a descriptor created earlier
(so claimed short letters are pairwise distinct and disjoint from every
spelling already in use when they are claimed); the collision that remains
possible is the converse one, a later single-character named parameter
reusing an earlier claimed letter. -/
theorem C2_amended_short_flag_uniqueness (A : ArgSpec)
    (hid : ∀ a ∈ A.args, a ≠ "" ∧ '-' ∉ a.data)
    (i j : Nat) (hij : i < j) (hj : j < (makeParser A).length) (s : String)
    (hcl : claimedShort ((makeParser A).getD j dummyDesc) = some s) :
    s ∉ ((makeParser A).getD i dummyDesc).names := by
  have hi : i < (makeParser A).length := Nat.lt_trans hij hj
  obtain ⟨dj, hgj⟩ : ∃ dj, (makeParser A).get? j = some dj :=
    ⟨(makeParser A).get ⟨j, hj⟩, List.get?_eq_get hj⟩
  obtain ⟨di, hgi⟩ : ∃ di, (makeParser A).get? i = some di :=
    ⟨(makeParser A).get ⟨i, hi⟩, List.get?_eq_get hi⟩
  have hdj : (makeParser A).getD j dummyDesc = dj := by
    rw [List.getD_eq_getD_get?, hgj]
    rfl
  have hdi : (makeParser A).getD i dummyDesc = di := by
    rw [List.getD_eq_getD_get?, hgi]
    rfl
  rw [hdj] at hcl
  rw [hdi]
  exact processArgs_no_collision A A.args
    { abbrevs := [], defaults := A.defaults0 } hid i j di dj s hij hgi hgj hcl

/-- Claim C2 witness: the amended theorem applied to `def cmd(ab=1, cd=2)` —
the short flag `-c` claimed for `cd` does not occur among the spellings of
the earlier descriptor for `ab`. -/
theorem C2_amended_short_flag_uniqueness_witness :
    "-c" ∉ ((makeParser cmdABCD).getD 0 dummyDesc).names :=
  C2_amended_short_flag_uniqueness cmdABCD (by decide) 0 1 (by decide)
    (by decide) "-c" (by decide)

theorem scanLine_marker (st : ScanState) (l : List Char) (name : String)
    (ind : Nat) (text : List Char)
    (hm : markerMatch (pyStripL l) = some (name, ind, text)) :
    scanLine st l =
      { arghelp := fun k => if k = name then some [(⟨pyStripL text⟩ : String)]
                            else st.arghelp k
        curBlock := some (name, ind)
        descLines := st.descLines } := by
  unfold scanLine
  rw [hm]

theorem scanLine_cont (st : ScanState) (l : List Char) (name : String) (ind : Nat)
    (hm : markerMatch (pyStripL l) = none) (hcur : st.curBlock = some (name, ind))
    (hcont : ind ≠ 0 ∧ pyIsSpaceL (l.take ind)) :
    scanLine st l =
      { arghelp := fun k =>
          if k = name then some (((st.arghelp name).getD []) ++ [(⟨pyStripL l⟩ : String)])
          else st.arghelp k
        curBlock := some (name, ind)
        descLines := st.descLines } := by
  unfold scanLine
  rw [hm, hcur]
  dsimp only
  rw [if_pos hcont]

theorem scanLine_descSome (st : ScanState) (l : List Char) (name : String) (ind : Nat)
    (hm : markerMatch (pyStripL l) = none) (hcur : st.curBlock = some (name, ind))
    (hcont : ¬(ind ≠ 0 ∧ pyIsSpaceL (l.take ind))) :
    scanLine st l =
      { arghelp := st.arghelp, curBlock := none, descLines := st.descLines ++ [l] } := by
  unfold scanLine
  rw [hm, hcur]
  dsimp only
  rw [if_neg hcont]

theorem scanLine_descNone (st : ScanState) (l : List Char)
    (hm : markerMatch (pyStripL l) = none) (hcur : st.curBlock = none) :
    scanLine st l =
      { arghelp := st.arghelp, curBlock := none, descLines := st.descLines ++ [l] } := by
  unfold scanLine
  rw [hm, hcur]

theorem scanLine_inv (st : ScanState) (l : List Char)
    (_hinv : ∀ n i, st.curBlock = some (n, i) → (st.arghelp n).isSome) :
    ∀ n i, (scanLine st l).curBlock = some (n, i) → ((scanLine st l).arghelp n).isSome := by
  intro n i h
  cases hm : markerMatch (pyStripL l) with
  | some nit =>
    obtain ⟨nm, id2, tx⟩ := nit
    rw [scanLine_marker st l nm id2 tx hm] at h ⊢
    simp at h ⊢
    simp [h.1]
  | none =>
    cases hcur : st.curBlock with
    | some ni =>
      obtain ⟨nm, id2⟩ := ni
      by_cases hcont : id2 ≠ 0 ∧ pyIsSpaceL (l.take id2)
      · rw [scanLine_cont st l nm id2 hm hcur hcont] at h ⊢
        simp at h ⊢
        simp [h.1]
      · rw [scanLine_descSome st l nm id2 hm hcur hcont] at h
        simp at h
    | none =>
      rw [scanLine_descNone st l hm hcur] at h
      simp at h

theorem scan_desc (lines : List (List Char)) :
    ∀ st : ScanState,
      (lines.foldl scanLine st).descLines =
        st.descLines ++ selectDesc lines (st.curBlock.map Prod.snd) := by
  induction lines with
  | nil =>
    intro st
    simp [selectDesc]
  | cons l rest ih =>
    intro st
    rw [List.foldl_cons]
    cases hm : markerMatch (pyStripL l) with
    | some nit =>
      obtain ⟨name, ind, text⟩ := nit
      rw [scanLine_marker st l name ind text hm] at *
      rw [ih]
      simp only [selectDesc, hm]
      rfl
    | none =>
      cases hcur : st.curBlock with
      | some ni =>
        obtain ⟨name, ind⟩ := ni
        by_cases hcont : ind ≠ 0 ∧ pyIsSpaceL (l.take ind)
        · rw [scanLine_cont st l name ind hm hcur hcont]
          rw [ih]
          simp only [selectDesc, hm, hcur]
          show st.descLines ++ selectDesc rest (some ind) =
            st.descLines ++ if ind ≠ 0 ∧ pyIsSpaceL (l.take ind) then
              selectDesc rest (some ind)
            else l :: selectDesc rest none
          rw [if_pos hcont]
        · rw [scanLine_descSome st l name ind hm hcur hcont]
          rw [ih]
          simp only [selectDesc, hm, hcur]
          show (st.descLines ++ [l]) ++ selectDesc rest none =
            st.descLines ++ if ind ≠ 0 ∧ pyIsSpaceL (l.take ind) then
              selectDesc rest (some ind)
            else l :: selectDesc rest none
          rw [if_neg hcont, List.append_assoc]
          rfl
      | none =>
        rw [scanLine_descNone st l hm hcur]
        rw [ih]
        simp only [selectDesc, hm, hcur]
        rw [List.append_assoc]
        rfl

theorem scan_arghelp (lines : List (List Char)) :
    ∀ st : ScanState,
      (∀ n i, st.curBlock = some (n, i) → (st.arghelp n).isSome) →
      ∀ a, (lines.foldl scanLine st).arghelp a =
        match lookupLast (argBlocks lines) a with
        | some ls => some ls
        | none =>
          match st.curBlock with
          | some (n, i) =>
            if a = n then
              some (((st.arghelp n).getD []) ++
                (contRun i lines).map (fun x => (⟨pyStripL x⟩ : String)))
            else st.arghelp a
          | none => st.arghelp a := by
  induction lines with
  | nil =>
    intro st hinv a
    show st.arghelp a = _
    cases hcur : st.curBlock with
    | none => rfl
    | some ni =>
      obtain ⟨n, i⟩ := ni
      show st.arghelp a = if a = n then
          some (((st.arghelp n).getD []) ++ (contRun i []).map _)
        else st.arghelp a
      by_cases han : a = n
      · subst han
        obtain ⟨ls, hls⟩ := Option.isSome_iff_exists.mp (hinv _ _ hcur)
        rw [if_pos rfl, hls]
        simp [contRun]
      · rw [if_neg han]
  | cons l rest ih =>
    intro st hinv a
    rw [List.foldl_cons]
    cases hm : markerMatch (pyStripL l) with
    | some nit =>
      obtain ⟨name, ind, text⟩ := nit
      have hstep := scanLine_marker st l name ind text hm
      have hinv2 := scanLine_inv st l hinv
      rw [ih (scanLine st l) hinv2 a, hstep]
      simp only [argBlocks, hm, lookupLast]
      cases hlk : lookupLast (argBlocks rest) a with
      | some ls => simp
      | none =>
        dsimp only
        by_cases han : a = name
        · subst han
          simp
        · rw [if_neg han, if_neg han, if_neg (fun h => han h.symm)]
          cases hcur : st.curBlock with
          | none => rfl
          | some ni =>
            obtain ⟨n, i⟩ := ni
            dsimp only
            have hrun : contRun i (l :: rest) = [] := by
              simp [contRun, List.takeWhile_cons, hm]
            rw [hrun]
            by_cases han2 : a = n
            · subst han2
              obtain ⟨ls0, hls0⟩ := Option.isSome_iff_exists.mp (hinv _ _ hcur)
              rw [if_pos rfl, hls0]
              simp [hls0]
            · rw [if_neg han2]
    | none =>
      cases hcur : st.curBlock with
      | some ni =>
        obtain ⟨name, ind⟩ := ni
        by_cases hcont : ind ≠ 0 ∧ pyIsSpaceL (l.take ind)
        · have hstep := scanLine_cont st l name ind hm hcur hcont
          have hinv2 := scanLine_inv st l hinv
          rw [ih (scanLine st l) hinv2 a, hstep]
          simp only [argBlocks, hm]
          cases hlk : lookupLast (argBlocks rest) a with
          | some ls => simp
          | none =>
            dsimp only
            have hrun : contRun ind (l :: rest) = l :: contRun ind rest := by
              simp [contRun, List.takeWhile_cons, hm, hcont.1, hcont.2]
            rw [hrun]
            by_cases han : a = name
            · subst han
              rw [if_pos rfl, if_pos rfl]
              obtain ⟨ls0, hls0⟩ := Option.isSome_iff_exists.mp (hinv _ _ hcur)
              rw [hls0]
              simp [hls0]
            · rw [if_neg han, if_neg han, if_neg han]
        · have hstep := scanLine_descSome st l name ind hm hcur hcont
          have hinv2 := scanLine_inv st l hinv
          rw [ih (scanLine st l) hinv2 a, hstep]
          simp only [argBlocks, hm]
          cases hlk : lookupLast (argBlocks rest) a with
          | some ls => simp
          | none =>
            dsimp only
            have hrun : contRun ind (l :: rest) = [] := by
              simp [contRun, List.takeWhile_cons, hm]
              intro h1
              cases hps : pyIsSpaceL (l.take ind) with
              | false => rfl
              | true => exact absurd ⟨h1, hps⟩ hcont
            rw [hrun]
            by_cases han : a = name
            · subst han
              rw [if_pos rfl]
              obtain ⟨ls0, hls0⟩ := Option.isSome_iff_exists.mp (hinv _ _ hcur)
              rw [hls0]
              simp [hls0]
            · rw [if_neg han]
      | none =>
        have hstep := scanLine_descNone st l hm hcur
        have hinv2 := scanLine_inv st l hinv
        rw [ih (scanLine st l) hinv2 a, hstep]
        simp only [argBlocks, hm]

/-- Claim C5 (counterexample): the description of `"Title\ndesc"` is the
whole cleaned text `"Title\ndesc"` — the summary line is part of the
description, not excluded from it. -/
theorem C5_counterexample :
    (parse_docstring "Title\ndesc").map (fun r => r.2.1) = some "Title\ndesc" ∧
    "Title\ndesc" ≠ "desc" := by
  refine ⟨by decide, by decide⟩

/-- Claim C5 (amended, proved): an absent docstring yields all-empty
outputs; otherwise the summary is the first line of the cleaned text, each
marker line `--NAME: TEXT` yields an argument-help entry equal to TEXT
space-joined with the following continuation lines — those whose first k
characters are nonempty whitespace, where k is the width of the marker
prefix `--NAME: ` of the stripped marker line — with a later marker for the
same NAME replacing the earlier entry, and the description is exactly the
non-marker, non-continuation lines among all lines of the cleaned text (the
summary line included), in original order with blank lines preserved. -/
theorem C5_amended_docstring (doc : String) (l0 : List Char)
    (rest : List (List Char)) :
    ((parse_docstring "").map (fun r => r.1) = some "" ∧
     (parse_docstring "").map (fun r => r.2.1) = some "" ∧
     ∀ a, (parse_docstring "").map (fun r => r.2.2 a) = some none) ∧
    (doc ≠ "" → pySplitlines (pyCleandoc doc.data) = l0 :: rest →
     (parse_docstring doc).map (fun r => r.1) = some (⟨l0⟩ : String) ∧
     (parse_docstring doc).map (fun r => r.2.1) =
       some (⟨intercalateNL (selectDesc (l0 :: rest) none)⟩ : String) ∧
     ∀ a, (parse_docstring doc).map (fun r => r.2.2 a) =
       some (specArgHelp (l0 :: rest) a)) := by
  constructor
  · exact ⟨rfl, rfl, fun a => rfl⟩
  · intro hne hlines
    have hpd : parse_docstring doc =
        some ((⟨l0⟩ : String),
          (⟨intercalateNL ((List.foldl scanLine
            { arghelp := fun _ => none, curBlock := none, descLines := [] }
            (l0 :: rest)).descLines)⟩ : String),
          fun a => (((List.foldl scanLine
            { arghelp := fun _ => none, curBlock := none, descLines := [] }
            (l0 :: rest)).arghelp a).map (String.intercalate " "))) := by
      unfold parse_docstring
      rw [if_neg hne, hlines]
    have hdesc := scan_desc (l0 :: rest)
      { arghelp := fun _ => none, curBlock := none, descLines := [] }
    have harg := scan_arghelp (l0 :: rest)
      { arghelp := fun _ => none, curBlock := none, descLines := [] }
      (fun n i h => Option.noConfusion h)
    refine ⟨?_, ?_, ?_⟩
    · rw [hpd]
      rfl
    · rw [hpd]
      simp only [Option.map]
      rw [hdesc]
      rfl
    · intro a
      rw [hpd]
      simp only [Option.map]
      rw [harg a]
      unfold specArgHelp
      cases hlk : lookupLast (argBlocks (l0 :: rest)) a with
      | some ls => rfl
      | none => rfl

/-- Claim C5 witness: the amended theorem applied to the docstring
`"T\n--x: a\n     b\nrest"`, whose cleaned text splits into the four lines
`T`, `--x: a`, `     b`, `rest`. -/
theorem C5_amended_docstring_witness :
    (parse_docstring witnessDoc).map (fun r => r.2.1) =
      some (⟨intercalateNL (selectDesc
        ("T".data :: ["--x: a".data, "     b".data, "rest".data]) none)⟩ : String) ∧
    (parse_docstring witnessDoc).map (fun r => r.2.2 "x") =
      some (specArgHelp
        ("T".data :: ["--x: a".data, "     b".data, "rest".data]) "x") := by
  have h := (C5_amended_docstring witnessDoc "T".data
    ["--x: a".data, "     b".data, "rest".data]).2 (by decide) (by decide)
  exact ⟨h.2.1, h.2.2 "x"⟩

end Quarg
